import Mathlib

/-
  Verification of the sniffy repository core against its specification.

  Shallow embedding of:
  - the COBS codec (src/main/cobs.c and src/lib/ts/dist/cobs.js),
  - the device command dispatcher and buffer pipeline (src/main/sniffer.c),
  - the host client frame handling and sequence tracker (SnifferClient).

  Bytes are modelled as natural numbers; fixed-width reads carry an explicit
  percent 256 where the source reads a uint8_t field.
-/

/- ===================== COBS codec ===================== -/

/-- Error kinds of the host COBS decoder. The TS decoder distinguishes a
literal zero code byte from a truncated span; the C decoder returns -1 in
both cases (comments there name the same two conditions). -/
inductive CobsError where
  | zeroByte
  | truncated
deriving DecidableEq

/-- Worker loop of cobs_encode from src/main/cobs.c. The second argument is
the group of literal bytes copied since the last emitted code byte; the C
code keeps it in the output buffer behind a reserved code-byte slot, the
functional version emits each code byte in front of its finished group.
The running C variable code equals grp.length + 1. -/
def cobs_encode_go : List Nat → List Nat → List Nat
  | [], grp => (grp.length + 1) :: grp
  | b :: rest, grp =>
    if b = 0 then
      (grp.length + 1) :: (grp ++ cobs_encode_go rest [])
    else if grp.length + 2 = 255 then
      (grp.length + 2) :: ((grp ++ [b]) ++ cobs_encode_go rest [])
    else
      cobs_encode_go rest (grp ++ [b])

/-- Embedding of cobs_encode (src/main/cobs.c, identical logic in
src/lib/ts/dist/cobs.js). -/
def cobs_encode (src : List Nat) : List Nat :=
  cobs_encode_go src []

/-- Embedding of cobs_decode (src/main/cobs.c) with the error kinds of the
TS decoder (src/lib/ts/dist/cobs.js): read a code byte, fail on zero, copy
code - 1 literals failing when the input runs out, append a zero when the
code byte is below 255 and input remains. -/
def cobs_decode : List Nat → Except CobsError (List Nat)
  | [] => Except.ok []
  | code :: rest =>
    if code = 0 then Except.error CobsError.zeroByte
    else if rest.length < code - 1 then Except.error CobsError.truncated
    else
      match cobs_decode (rest.drop (code - 1)) with
      | Except.error e => Except.error e
      | Except.ok tail =>
          Except.ok (rest.take (code - 1)
            ++ (if code < 255 ∧ rest.drop (code - 1) ≠ [] then [0] else [])
            ++ tail)
termination_by l => l.length
decreasing_by
  simp only [List.length_drop, List.length_cons]
  omega

lemma cobs_encode_go_ne_nil (src : List Nat) : ∀ grp : List Nat, cobs_encode_go src grp ≠ [] := by
  induction src with
  | nil => intro grp; simp [cobs_encode_go]
  | cons b rest ih =>
    intro grp
    simp only [cobs_encode_go]
    split_ifs with h1 h2
    · simp
    · simp
    · exact ih (grp ++ [b])

lemma cobs_decode_encode_go (src : List Nat) :
    ∀ grp : List Nat, (∀ b ∈ grp, b ≠ 0) → grp.length ≤ 253 →
      cobs_decode (cobs_encode_go src grp) = Except.ok (grp ++ src) := by
  induction src with
  | nil =>
    intro grp _ _
    rw [cobs_encode_go, cobs_decode]
    simp [cobs_decode]
  | cons b rest ih =>
    intro grp hz hle
    rw [cobs_encode_go]
    split_ifs with h1 h2
    · -- zero input byte: emit the group, start afresh
      rw [cobs_decode]
      have hne := cobs_encode_go_ne_nil rest []
      simp only [Nat.add_sub_cancel, List.take_left, List.drop_left,
        ih [] (by simp) (by simp)]
      have hcond : grp.length + 1 < 255 ∧ cobs_encode_go rest [] ≠ [] :=
        ⟨by omega, hne⟩
      simp only [if_pos hcond]
      · have hlen : ¬ ((grp ++ cobs_encode_go rest []).length < grp.length + 1 - 1) := by
          simp only [List.length_append]
          omega
        simp [hlen, h1]
    · -- group reached 254 literals: emit code byte 255, no zero synthesized
      rw [cobs_decode]
      have hlit : (grp ++ [b]).length = grp.length + 2 - 1 := by
        simp
      have hlen : ¬ (((grp ++ [b]) ++ cobs_encode_go rest []).length < grp.length + 2 - 1) := by
        simp only [List.length_append, List.length_cons, List.length_nil]
        omega
      simp only [hlen, if_neg, List.take_left' hlit, List.drop_left' hlit,
        ih [] (by simp) (by simp)]
      have hcond : ¬ (grp.length + 2 < 255 ∧ cobs_encode_go rest [] ≠ []) := by
        intro hc
        omega
      simp [hcond]
    · -- plain literal byte: extend the group
      rw [ih (grp ++ [b])]
      · simp
      · intro x hx
        rcases List.mem_append.mp hx with hx | hx
        · exact hz x hx
        · simp only [List.mem_singleton] at hx
          subst hx
          exact h1
      · simp only [List.length_append, List.length_cons, List.length_nil]
        omega

/-- Claim C1: for every byte sequence x (the theorem holds for every list of
naturals, hence in particular for byte sequences, including the empty
sequence, all-zero sequences, and the 254/255 length boundary), decoding
the encoding of x succeeds and returns x exactly. -/
theorem cobs_roundtrip (x : List Nat) : cobs_decode (cobs_encode x) = Except.ok x := by
  simpa using cobs_decode_encode_go x [] (by simp) (by simp)

lemma cobs_encode_go_no_zero (src : List Nat) :
    ∀ grp : List Nat, (∀ b ∈ grp, b ≠ 0) →
      ∀ b ∈ cobs_encode_go src grp, b ≠ 0 := by
  induction src with
  | nil =>
    intro grp hz b hb
    rw [cobs_encode_go] at hb
    rcases List.mem_cons.mp hb with hb | hb
    · omega
    · exact hz b hb
  | cons a rest ih =>
    intro grp hz b hb
    rw [cobs_encode_go] at hb
    split_ifs at hb with h1 h2
    · rcases List.mem_cons.mp hb with hb | hb
      · omega
      · rcases List.mem_append.mp hb with hb | hb
        · exact hz b hb
        · exact ih [] (by simp) b hb
    · rcases List.mem_cons.mp hb with hb | hb
      · omega
      · rcases List.mem_append.mp hb with hb | hb
        · rcases List.mem_append.mp hb with hb | hb
          · exact hz b hb
          · simp only [List.mem_singleton] at hb
            subst hb
            exact h1
        · exact ih [] (by simp) b hb
    · refine ih (grp ++ [a]) ?_ b hb
      intro x hx
      rcases List.mem_append.mp hx with hx | hx
      · exact hz x hx
      · simp only [List.mem_singleton] at hx
        subst hx
        exact h1

lemma cobs_encode_go_length (src : List Nat) :
    ∀ grp : List Nat,
      (cobs_encode_go src grp).length
        ≤ 1 + grp.length + src.length + (grp.length + src.length) / 254 := by
  induction src with
  | nil =>
    intro grp
    rw [cobs_encode_go]
    simp only [List.length_cons]
    omega
  | cons b rest ih =>
    intro grp
    rw [cobs_encode_go]
    split_ifs with h1 h2
    · have h := ih []
      simp only [List.length_nil, Nat.zero_add] at h
      have hmono : rest.length / 254 ≤ (grp.length + (rest.length + 1)) / 254 :=
        Nat.div_le_div_right (by omega)
      simp only [List.length_cons, List.length_append] at h ⊢
      omega
    · have h := ih []
      simp only [List.length_nil, Nat.zero_add] at h
      have h253 : grp.length = 253 := by omega
      simp only [List.length_cons, List.length_append, List.length_nil, Nat.zero_add, h253] at h ⊢
      have hdiv : (253 + (rest.length + 1)) / 254 = rest.length / 254 + 1 := by
        have heq : 253 + (rest.length + 1) = rest.length + 254 := by omega
        rw [heq, Nat.add_div_right _ (by norm_num)]
      omega
    · have h := ih (grp ++ [b])
      simp only [List.length_cons, List.length_append, List.length_nil, Nat.zero_add] at h ⊢
      have heq : grp.length + 1 + rest.length = grp.length + (rest.length + 1) := by omega
      rw [heq] at h
      omega

/-- Claim C10: for every input of length n, COBS encode produces output
containing no zero byte, and the output length is at most
n + ceil(n/254) + 1, where the ceiling is written (n + 253) / 254 in
natural-number division. -/
theorem cobs_encode_no_zero_and_bound (x : List Nat) :
    (∀ b ∈ cobs_encode x, b ≠ 0)
    ∧ (cobs_encode x).length ≤ x.length + (x.length + 253) / 254 + 1 := by
  constructor
  · exact cobs_encode_go_no_zero x [] (by simp)
  · have h := cobs_encode_go_length x []
    have hmono : x.length / 254 ≤ (x.length + 253) / 254 :=
      Nat.div_le_div_right (by omega)
    simp only [List.length_nil, Nat.zero_add] at h
    unfold cobs_encode
    omega

/-- Structural characterization used for the COBS failure modes: the input
consists of some number of complete groups (a nonzero code byte followed by
exactly code - 1 literal bytes) and then a suffix satisfying P. -/
inductive GroupsThen (P : List Nat → Prop) : List Nat → Prop
  | here {s : List Nat} : P s → GroupsThen P s
  | step {c : Nat} {lits rest : List Nat} :
      c ≠ 0 → lits.length = c - 1 → GroupsThen P rest →
      GroupsThen P (c :: (lits ++ rest))

lemma groupsThen_nil_decode {s : List Nat}
    (h : GroupsThen (fun u => u = []) s) : ∃ t, cobs_decode s = Except.ok t := by
  induction h with
  | here hp =>
    subst hp
    exact ⟨[], by rw [cobs_decode]⟩
  | step hc hl _ ih =>
    rename_i c lits rest _
    obtain ⟨t, ht⟩ := ih
    rw [cobs_decode]
    have hlen : ¬ ((lits ++ rest).length < c - 1) := by
      simp only [List.length_append]
      omega
    rw [if_neg (by omega), if_neg hlen, List.drop_left' hl, ht]
    exact ⟨_, rfl⟩

lemma groupsThen_zero_decode {s : List Nat}
    (h : GroupsThen (fun u => ∃ r, u = 0 :: r) s) :
    cobs_decode s = Except.error CobsError.zeroByte := by
  induction h with
  | here hp =>
    obtain ⟨r, hr⟩ := hp
    subst hr
    rw [cobs_decode]
    simp
  | step hc hl _ ih =>
    rename_i c lits rest _
    rw [cobs_decode]
    have hlen : ¬ ((lits ++ rest).length < c - 1) := by
      simp only [List.length_append]
      omega
    rw [if_neg (by omega), if_neg hlen, List.drop_left' hl, ih]

lemma groupsThen_trunc_decode {s : List Nat}
    (h : GroupsThen (fun u => ∃ c r, u = c :: r ∧ c ≠ 0 ∧ r.length < c - 1) s) :
    cobs_decode s = Except.error CobsError.truncated := by
  induction h with
  | here hp =>
    obtain ⟨c, r, hr, hc, hlt⟩ := hp
    subst hr
    rw [cobs_decode]
    rw [if_neg (by omega), if_pos hlt]
  | step hc hl _ ih =>
    rename_i c lits rest _
    rw [cobs_decode]
    have hlen : ¬ ((lits ++ rest).length < c - 1) := by
      simp only [List.length_append]
      omega
    rw [if_neg (by omega), if_neg hlen, List.drop_left' hl, ih]

lemma cobs_decode_forward :
    ∀ n : Nat, ∀ s : List Nat, s.length ≤ n →
      ((∀ t, cobs_decode s = Except.ok t → GroupsThen (fun u => u = []) s)
      ∧ (cobs_decode s = Except.error CobsError.zeroByte →
          GroupsThen (fun u => ∃ r, u = 0 :: r) s)
      ∧ (cobs_decode s = Except.error CobsError.truncated →
          GroupsThen (fun u => ∃ c r, u = c :: r ∧ c ≠ 0 ∧ r.length < c - 1) s)) := by
  intro n
  induction n with
  | zero =>
    intro s hs
    have hnil : s = [] := List.length_eq_zero.mp (by omega)
    subst hnil
    refine ⟨fun t ht => GroupsThen.here rfl, ?_, ?_⟩ <;>
      · intro hcontra
        rw [cobs_decode] at hcontra
        exact absurd hcontra (by simp)
  | succ n ih =>
    intro s hs
    match s with
    | [] =>
      refine ⟨fun t ht => GroupsThen.here rfl, ?_, ?_⟩ <;>
        · intro hcontra
          rw [cobs_decode] at hcontra
          exact absurd hcontra (by simp)
    | c :: r =>
      by_cases hc : c = 0
      · subst hc
        refine ⟨?_, ?_, ?_⟩
        · intro t ht
          rw [cobs_decode] at ht
          simp at ht
        · intro _
          exact GroupsThen.here ⟨r, rfl⟩
        · intro hcontra
          rw [cobs_decode] at hcontra
          simp at hcontra
      · by_cases hlt : r.length < c - 1
        · refine ⟨?_, ?_, ?_⟩
          · intro t ht
            rw [cobs_decode, if_neg hc, if_pos hlt] at ht
            simp at ht
          · intro hcontra
            rw [cobs_decode, if_neg hc, if_pos hlt] at hcontra
            simp at hcontra
          · intro _
            exact GroupsThen.here ⟨c, r, rfl, hc, hlt⟩
        · have hrlen : (r.drop (c - 1)).length ≤ n := by
            simp only [List.length_drop]
            simp only [List.length_cons] at hs
            omega
          have ihr := ih (r.drop (c - 1)) hrlen
          have htake : (r.take (c - 1)).length = c - 1 :=
            List.length_take_of_le (by omega)
          have hsplit : c :: (r.take (c - 1) ++ r.drop (c - 1)) = c :: r := by
            rw [List.take_append_drop]
          refine ⟨?_, ?_, ?_⟩
          · intro t ht
            rw [cobs_decode, if_neg hc, if_neg hlt] at ht
            rcases hrec : cobs_decode (r.drop (c - 1)) with e | u
            · rw [hrec] at ht
              simp at ht
            · have hgr := ihr.1 u hrec
              rw [← hsplit]
              exact GroupsThen.step hc htake hgr
          · intro hcontra
            rw [cobs_decode, if_neg hc, if_neg hlt] at hcontra
            rcases hrec : cobs_decode (r.drop (c - 1)) with e | u
            · rw [hrec] at hcontra
              simp only [Except.error.injEq] at hcontra
              subst hcontra
              have hgr := ihr.2.1 hrec
              rw [← hsplit]
              exact GroupsThen.step hc htake hgr
            · rw [hrec] at hcontra
              simp at hcontra
          · intro hcontra
            rw [cobs_decode, if_neg hc, if_neg hlt] at hcontra
            rcases hrec : cobs_decode (r.drop (c - 1)) with e | u
            · rw [hrec] at hcontra
              simp only [Except.error.injEq] at hcontra
              subst hcontra
              have hgr := ihr.2.2 hrec
              rw [← hsplit]
              exact GroupsThen.step hc htake hgr
            · rw [hrec] at hcontra
              simp at hcontra

/-- Claim C8: COBS decode fails if and only if some group has a zero
length-code byte or a length-code byte declares more literal bytes than
remain; the zero length-code case fails with the malformed (zeroByte)
error, the truncated span case with the truncation error, and on every
other input decode succeeds. -/
theorem cobs_decode_failure_modes (s : List Nat) :
    ((∃ t, cobs_decode s = Except.ok t) ↔ GroupsThen (fun u => u = []) s)
    ∧ (cobs_decode s = Except.error CobsError.zeroByte
        ↔ GroupsThen (fun u => ∃ r, u = 0 :: r) s)
    ∧ (cobs_decode s = Except.error CobsError.truncated
        ↔ GroupsThen (fun u => ∃ c r, u = c :: r ∧ c ≠ 0 ∧ r.length < c - 1) s) := by
  have hfwd := cobs_decode_forward s.length s (le_refl _)
  refine ⟨⟨?_, groupsThen_nil_decode⟩,
          ⟨hfwd.2.1, groupsThen_zero_decode⟩,
          ⟨hfwd.2.2, groupsThen_trunc_decode⟩⟩
  intro ht
  obtain ⟨t, ht⟩ := ht
  exact hfwd.1 t ht

/- ===================== Device command dispatcher ===================== -/

/-- Message type constants from protocol.h. -/
def MSG_CMD_SCAN_START : Nat := 0x01

def MSG_CMD_SCAN_STOP : Nat := 0x02

def MSG_CMD_PROMISC_ON : Nat := 0x03

def MSG_CMD_PROMISC_OFF : Nat := 0x04

def MSG_CMD_PROMISC_QUERY : Nat := 0x05

/-- Error codes from protocol.h. -/
def ERR_UNKNOWN_CMD : Nat := 0x01

def ERR_INVALID_CHANNEL : Nat := 0x02

def ERR_SCAN_ACTIVE : Nat := 0x04

/-- Modelled from the spec: the constant ERR_INVALID_FILTER is used by
handle_command in src/main/sniffer.c but its definition is not in the
provided copy of protocol.h; the spec lists InvalidFilter = 0x05 among the
error codes. -/
def ERR_INVALID_FILTER : Nat := 0x05

/-- Valid channel table valid_channels from src/main/sniffer.c. -/
def valid_channels : List Nat :=
  [1, 2, 3, 4, 5, 6, 7, 8, 9, 10, 11, 12, 13, 36, 40, 44, 48, 149, 153, 157, 161, 165]

/-- Embedding of is_valid_channel: the C code compares each table entry
against the argument cast to uint8_t. -/
def is_valid_channel (ch : Nat) : Bool :=
  valid_channels.contains (ch % 256)

/-- Shared device state written by handle_command: the volatile flags of
src/main/sniffer.c (scanning, promisc_on, scan_channel) together with
scan_filter. -/
structure SnifferState where
  scanning : Bool
  promisc_on : Bool
  scan_channel : Int
  scan_filter : Nat
deriving DecidableEq

/-- Reply sent by handle_command through proto_send_ack, proto_send_error
or proto_send_promisc_status. -/
inductive ProtoReply where
  | ack (cmd_type : Nat)
  | error (cmd_type : Nat) (code : Nat)
  | promisc_status (enabled : Bool)
deriving DecidableEq

/-- Embedding of handle_command from src/main/sniffer.c. The input is the
decoded message as a byte list; header fields are read little-endian as in
the packed proto_msg_hdr_t, with percent 256 modelling the uint8_t reads.
Wifi driver calls (set filter, set promiscuous, task notify) have no effect
on the modelled state and are omitted; the state fields mirror the
assignments of the C code. -/
def handle_command (data : List Nat) (st : SnifferState) : Option ProtoReply × SnifferState :=
  if data.length < 4 then (none, st)
  else
    let msg_type := data.getD 0 0 % 256
    let plen := data.getD 2 0 % 256 + 256 * (data.getD 3 0 % 256)
    let payload := data.drop 4
    if data.length - 4 < plen then (none, st)
    else if msg_type = MSG_CMD_SCAN_START then
      if plen < 2 then (some (ProtoReply.error msg_type ERR_INVALID_CHANNEL), st)
      else
        let ch := payload.getD 0 0 % 256
        let filt_byte := payload.getD 1 0 % 256
        if ch ≠ 0 ∧ is_valid_channel ch = false then
          (some (ProtoReply.error msg_type ERR_INVALID_CHANNEL), st)
        else if filt_byte &&& 0xF8 ≠ 0 then
          (some (ProtoReply.error msg_type ERR_INVALID_FILTER), st)
        else
          (some (ProtoReply.ack msg_type),
            { scanning := true
              promisc_on := true
              scan_channel := if ch = 0 then -1 else (ch : Int)
              scan_filter := filt_byte })
    else if msg_type = MSG_CMD_SCAN_STOP then
      (some (ProtoReply.ack msg_type), { st with scanning := false })
    else if msg_type = MSG_CMD_PROMISC_ON then
      (some (ProtoReply.ack msg_type), { st with promisc_on := true })
    else if msg_type = MSG_CMD_PROMISC_OFF then
      if st.scanning then (some (ProtoReply.error msg_type ERR_SCAN_ACTIVE), st)
      else (some (ProtoReply.ack msg_type), { st with promisc_on := false })
    else if msg_type = MSG_CMD_PROMISC_QUERY then
      (some (ProtoReply.promisc_status st.promisc_on), st)
    else
      (some (ProtoReply.error msg_type ERR_UNKNOWN_CMD), st)

/-- Claim C2: the dispatcher replies as the validation table specifies and
changes no state on validation failure: ScanStart with channel 14 replies
Error InvalidChannel, ScanStart with channel 0 and filter 0x08 replies
Error InvalidFilter (0x05), PromiscOff while scanning replies Error
ScanActive, and any well-formed message with an unrecognized msg_type
replies Error UnknownCommand; in all four cases the state is unchanged. -/
theorem command_validation (st : SnifferState) (fl f : Nat) :
    handle_command [1, fl, 2, 0, 14, f] st
      = (some (ProtoReply.error MSG_CMD_SCAN_START ERR_INVALID_CHANNEL), st)
    ∧ handle_command [1, fl, 2, 0, 0, 8] st
      = (some (ProtoReply.error MSG_CMD_SCAN_START ERR_INVALID_FILTER), st)
    ∧ (st.scanning = true →
        handle_command [4, fl, 0, 0] st
          = (some (ProtoReply.error MSG_CMD_PROMISC_OFF ERR_SCAN_ACTIVE), st))
    ∧ (∀ data : List Nat, 4 ≤ data.length →
        data.getD 2 0 % 256 + 256 * (data.getD 3 0 % 256) ≤ data.length - 4 →
        data.getD 0 0 % 256 ∉ ([1, 2, 3, 4, 5] : List Nat) →
        handle_command data st
          = (some (ProtoReply.error (data.getD 0 0 % 256) ERR_UNKNOWN_CMD), st)) := by
  refine ⟨?_, ?_, ?_, ?_⟩
  · simp [handle_command, is_valid_channel, valid_channels,
      MSG_CMD_SCAN_START, ERR_INVALID_CHANNEL]
  · simp [handle_command, is_valid_channel, valid_channels,
      MSG_CMD_SCAN_START, ERR_INVALID_FILTER]
  · intro hscan
    simp [handle_command, MSG_CMD_SCAN_START, MSG_CMD_SCAN_STOP, MSG_CMD_PROMISC_ON,
      MSG_CMD_PROMISC_OFF, ERR_SCAN_ACTIVE, hscan]
  · intro data hlen hplen htype
    simp only [List.mem_cons, List.mem_singleton, not_or] at htype
    obtain ⟨h1, h2, h3, h4, h5⟩ := htype
    rw [handle_command]
    rw [if_neg (by omega), if_neg (by omega)]
    rw [if_neg (by simpa [MSG_CMD_SCAN_START] using h1),
      if_neg (by simpa [MSG_CMD_SCAN_STOP] using h2),
      if_neg (by simpa [MSG_CMD_PROMISC_ON] using h3),
      if_neg (by simpa [MSG_CMD_PROMISC_OFF] using h4),
      if_neg (by simpa [MSG_CMD_PROMISC_QUERY] using h5)]

/-- Claim C6: the dispatcher preserves the invariant that scanning implies
promiscuous: from any state satisfying it, the post state satisfies it;
every successful ScanStart leaves promiscuous true; ScanStop leaves
scanning false and promiscuous unchanged; PromiscOff while scanning is
never acknowledged and leaves the state unchanged; PromiscOn and
PromiscQuery never change scanning. -/
theorem dispatcher_invariant (data : List Nat) (st : SnifferState)
    (hinv : st.scanning = true → st.promisc_on = true) :
    (((handle_command data st).2).scanning = true →
        ((handle_command data st).2).promisc_on = true)
    ∧ ((handle_command data st).1 = some (ProtoReply.ack MSG_CMD_SCAN_START) →
        ((handle_command data st).2).promisc_on = true)
    ∧ ((handle_command data st).1 = some (ProtoReply.ack MSG_CMD_SCAN_STOP) →
        ((handle_command data st).2).scanning = false
        ∧ ((handle_command data st).2).promisc_on = st.promisc_on)
    ∧ (st.scanning = true → data.getD 0 0 % 256 = MSG_CMD_PROMISC_OFF →
        (handle_command data st).1 ≠ some (ProtoReply.ack MSG_CMD_PROMISC_OFF)
        ∧ (handle_command data st).2 = st)
    ∧ ((data.getD 0 0 % 256 = MSG_CMD_PROMISC_ON
        ∨ data.getD 0 0 % 256 = MSG_CMD_PROMISC_QUERY) →
        ((handle_command data st).2).scanning = st.scanning) := by
  simp only [handle_command]
  split_ifs with h1 h2 h3 h4 h5 h6 h7 h8 h9 <;>
    simp_all [MSG_CMD_SCAN_START, MSG_CMD_SCAN_STOP, MSG_CMD_PROMISC_ON,
      MSG_CMD_PROMISC_OFF, MSG_CMD_PROMISC_QUERY]

/-- Witness for claim C6 at concrete inputs. -/
theorem dispatcher_invariant_witness :
    (handle_command [4, 0, 0, 0] ⟨true, true, -1, 0⟩).2 = ⟨true, true, -1, 0⟩
    ∧ ((handle_command [2, 0, 0, 0] ⟨true, true, -1, 0⟩).2).scanning = false :=
  ⟨((dispatcher_invariant [4, 0, 0, 0] ⟨true, true, -1, 0⟩ (fun _ => rfl)).2.2.2.1
      rfl (by decide)).2,
   ((dispatcher_invariant [2, 0, 0, 0] ⟨true, true, -1, 0⟩ (fun _ => rfl)).2.2.1
      (by decide)).1⟩

/- ===================== Host client ===================== -/

/-- Message built by SnifferClient.scan: the 4-byte little-endian header of
_sendCmd with msg_type ScanStart, zero flags, payload length 1, followed by
the single channel byte (a Uint8Array entry, hence the value modulo 256).
No filter byte is sent. -/
def client_scan_message (channel : Nat) : List Nat :=
  [MSG_CMD_SCAN_START, 0, 1, 0, channel % 256]

/-- Claim C5: for every channel value the client scan command carries a
one-byte payload, and the dispatcher replies Error InvalidChannel to every
ScanStart whose declared payload length is below 2 (shown for lengths 0 and
1) leaving the state unchanged, so a scan issued by this client is always
rejected and never acknowledged. -/
theorem client_scan_rejected (ch fl b : Nat) (st : SnifferState) :
    handle_command (client_scan_message ch) st
      = (some (ProtoReply.error MSG_CMD_SCAN_START ERR_INVALID_CHANNEL), st)
    ∧ handle_command [1, fl, 0, 0] st
      = (some (ProtoReply.error MSG_CMD_SCAN_START ERR_INVALID_CHANNEL), st)
    ∧ handle_command [1, fl, 1, 0, b] st
      = (some (ProtoReply.error MSG_CMD_SCAN_START ERR_INVALID_CHANNEL), st) := by
  refine ⟨?_, ?_, ?_⟩
  · simp [handle_command, client_scan_message, MSG_CMD_SCAN_START, ERR_INVALID_CHANNEL]
  · simp [handle_command, MSG_CMD_SCAN_START, ERR_INVALID_CHANNEL]
  · simp [handle_command, MSG_CMD_SCAN_START, ERR_INVALID_CHANNEL]

/-- Per-connection sequence tracker of SnifferClient: _seqExpect, _firstSeq
and the running dropped counter. -/
structure SeqTracker where
  seqExpect : Nat
  firstSeq : Bool
  dropped : Nat
deriving DecidableEq

/-- Drop-detection step of SnifferClient._handleFrame. On the first frame
the code seeds _seqExpect with the sequence number and counts nothing; on
later frames differing from _seqExpect it masks the JS subtraction with
0xffff and accumulates the gap when it is below 0x8000; every path then
overwrites _seqExpect with the masked successor of the sequence number. -/
def seq_update (t : SeqTracker) (seqNum : Nat) : SeqTracker :=
  let dropped' :=
    if t.firstSeq then t.dropped
    else if seqNum ≠ t.seqExpect then
      let gap := (((seqNum : Int) - (t.seqExpect : Int)) % 65536).toNat
      if gap < 32768 then t.dropped + gap else t.dropped
    else t.dropped
  { seqExpect := (seqNum + 1) % 65536, firstSeq := false, dropped := dropped' }

/-- Claim C3: the tracker seeds on the first accepted frame without touching
the dropped counter, on every later frame adds the masked gap exactly when
it is below 32768, always ends with expected equal to the masked successor
of the received sequence number, never decreases the counter, and from
expected 10 an accepted 12 raises the counter by 2 and makes expected 13. -/
theorem seq_tracker_update (t : SeqTracker) (s : Nat) :
    (seq_update t s).seqExpect = (s + 1) % 65536
    ∧ (seq_update t s).firstSeq = false
    ∧ (t.firstSeq = true → (seq_update t s).dropped = t.dropped)
    ∧ (t.firstSeq = false →
        (seq_update t s).dropped =
          (if (((s : Int) - (t.seqExpect : Int)) % 65536).toNat < 32768
            then t.dropped + (((s : Int) - (t.seqExpect : Int)) % 65536).toNat
            else t.dropped))
    ∧ t.dropped ≤ (seq_update t s).dropped
    ∧ (t.firstSeq = false → t.seqExpect = 10 → s = 12 →
        (seq_update t s).dropped = t.dropped + 2 ∧ (seq_update t s).seqExpect = 13) := by
  refine ⟨rfl, rfl, ?_, ?_, ?_, ?_⟩
  · intro hfirst
    simp [seq_update, hfirst]
  · intro hfirst
    by_cases hs : s = t.seqExpect
    · subst hs
      simp [seq_update, hfirst]
    · simp [seq_update, hfirst, hs]
  · simp only [seq_update]
    split_ifs <;> omega
  · intro hfirst hexp hseq
    subst hseq
    simp [seq_update, hfirst, hexp]

/-- Witness for claim C3 at concrete inputs. -/
theorem seq_tracker_update_witness :
    ((seq_update ⟨10, false, 5⟩ 12).dropped = 5 + 2
      ∧ (seq_update ⟨10, false, 5⟩ 12).seqExpect = 13)
    ∧ (seq_update ⟨3, true, 7⟩ 9).dropped = 7 :=
  ⟨(seq_tracker_update ⟨10, false, 5⟩ 12).2.2.2.2.2 rfl rfl rfl,
   (seq_tracker_update ⟨3, true, 7⟩ 9).2.2.1 rfl⟩

/-- Counterexample for claim C4: from expected 65535 an accepted sequence
number 1 raises the dropped counter by 2, not by 1, because frames 65535
and 0 are both missing. -/
theorem seq_wraparound_counterexample :
    ¬ ((seq_update ⟨65535, false, 0⟩ 1).dropped = 0 + 1) := by
  decide

/-- Claim C4 amended: when the tracker state is expected 65535 (not the
first frame) and a frame with sequence number 1 is accepted, the wraparound
computation yields a forward gap of 2 (not 65534), the dropped counter
increases by exactly 2, and expected becomes 2. -/
theorem seq_wraparound_gap_two (d : Nat) :
    (seq_update ⟨65535, false, d⟩ 1).dropped = d + 2
    ∧ (seq_update ⟨65535, false, d⟩ 1).seqExpect = 2 := by
  constructor
  · simp [seq_update]
  · rfl

/-- Per-connection counters of SnifferClient relevant to frame handling:
frameCount plus the sequence tracker fields. -/
structure ClientState where
  frameCount : Nat
  tracker : SeqTracker
deriving DecidableEq

/-- Payload slice extracted by SnifferClient._handleFrame: the declared
little-endian payload length is read from header bytes 2 and 3 and the
slice after the 4-byte header is cut to it. -/
def framePayload (data : List Nat) : List Nat :=
  (data.drop 4).take (data.getD 2 0 + 256 * data.getD 3 0)

/-- Embedding of SnifferClient._handleFrame. Returns the new client state
and, when the message is accepted, the (metadata, frame bytes) pair handed
to the frame-arrival callback. The declared frame length sits at metadata
offsets 4 and 5 and the sequence number at offsets 12 and 13, both
little-endian, as unpacked by the Frame constructor. -/
def handleFrame (st : ClientState) (data : List Nat) :
    ClientState × Option (List Nat × List Nat) :=
  if data.length < 4 then (st, none)
  else
    let payload := framePayload data
    if payload.length < 16 then (st, none)
    else
      let meta := payload.take 16
      let frameLen := meta.getD 4 0 + 256 * meta.getD 5 0
      let frameData := (payload.drop 16).take frameLen
      if frameData.length < frameLen then (st, none)
      else
        let seqNum := meta.getD 12 0 + 256 * meta.getD 13 0
        ({ frameCount := st.frameCount + 1, tracker := seq_update st.tracker seqNum },
          some (meta, frameData))

/-- Claim C7: a Frame event whose payload is shorter than the 16-byte
metadata, or whose declared frame_len exceeds the frame bytes actually
present in the payload, is rejected atomically: no callback delivery and
no change to frameCount, the dropped counter, or the sequence tracker. -/
theorem frame_validation (st : ClientState) (data : List Nat)
    (h : (framePayload data).length < 16
      ∨ ((framePayload data).drop 16).length
          < (framePayload data).getD 4 0 + 256 * (framePayload data).getD 5 0) :
    handleFrame st data = (st, none) := by
  simp only [handleFrame]
  split_ifs with h1 h2 h3
  · rfl
  · rfl
  · rfl
  · exfalso
    rcases h with h | h
    · exact h2 h
    · apply h3.elim
      push_neg at h2
      have hmeta4 : ((framePayload data).take 16).getD 4 0 = (framePayload data).getD 4 0 := by
        simp [List.getD, List.getElem?_take]
      have hmeta5 : ((framePayload data).take 16).getD 5 0 = (framePayload data).getD 5 0 := by
        simp [List.getD, List.getElem?_take]
      rw [hmeta4, hmeta5]
      simp only [List.length_take]
      omega

/-- Witness for claim C7: a Frame message declaring five frame bytes while
only one is present is rejected with the state unchanged. -/
theorem frame_validation_witness :
    handleFrame ⟨3, ⟨7, false, 1⟩⟩
        [0xC0, 0, 17, 0, 0, 0, 0, 0, 5, 0, 1, 2, 3, 4, 5, 6, 7, 0, 0, 0, 9]
      = (⟨3, ⟨7, false, 1⟩⟩, none) :=
  frame_validation ⟨3, ⟨7, false, 1⟩⟩
    [0xC0, 0, 17, 0, 0, 0, 0, 0, 5, 0, 1, 2, 3, 4, 5, 6, 7, 0, 0, 0, 9]
    (by decide)

/-- Witness for claim C2 at concrete inputs. -/
theorem command_validation_witness :
    handle_command [1, 0, 2, 0, 14, 0] ⟨false, false, -1, 0⟩
      = (some (ProtoReply.error MSG_CMD_SCAN_START ERR_INVALID_CHANNEL), ⟨false, false, -1, 0⟩)
    ∧ handle_command [4, 0, 0, 0] ⟨true, false, -1, 0⟩
      = (some (ProtoReply.error MSG_CMD_PROMISC_OFF ERR_SCAN_ACTIVE), ⟨true, false, -1, 0⟩)
    ∧ handle_command [9, 0, 0, 0] ⟨false, false, -1, 0⟩
      = (some (ProtoReply.error 9 ERR_UNKNOWN_CMD), ⟨false, false, -1, 0⟩) :=
  ⟨(command_validation ⟨false, false, -1, 0⟩ 0 0).1,
   (command_validation ⟨true, false, -1, 0⟩ 0 0).2.2.1 rfl,
   (command_validation ⟨false, false, -1, 0⟩ 0 0).2.2.2 [9, 0, 0, 0]
     (by decide) (by decide) (by decide)⟩

/- ===================== Device buffer pipeline ===================== -/

/-- Frame size limits from protocol.h. -/
def MAX_FRAME_LEN : Nat := 2300

def BUF_POOL_SIZE : Nat := 8

/-- State of the two FreeRTOS queues of src/main/sniffer.c: pool_queue, the
free list holding slot handles, and tx_queue holding tx_item_t pairs of a
slot handle and a message length. Slot buffers are addressed by handle; the
byte contents written into a slot do not affect slot ownership and are not
modelled. -/
structure PoolState where
  pool : List Nat
  txq : List (Nat × Nat)
deriving DecidableEq

/-- Bounded non-blocking xQueueSend: append when below capacity, otherwise
fail leaving the queue unchanged. -/
def queue_send {α : Type} (cap : Nat) (q : List α) (x : α) : Bool × List α :=
  if q.length < cap then (true, q ++ [x]) else (false, q)

/-- Embedding of proto_send_frame from src/main/sniffer.c, restricted to
the slot accounting the claim is about: return early when not scanning or
the frame is oversized, otherwise take a slot from the free pool
(non-blocking, drop when empty), enqueue the (slot, header + metadata +
frame length) item on the transmit queue, and on a full transmit queue
return the slot to the pool. -/
def proto_send_frame (scanning : Bool) (sig_len : Nat) (st : PoolState) : PoolState :=
  if scanning = false then st
  else if MAX_FRAME_LEN < sig_len then st
  else
    match st.pool with
    | [] => st
    | buf :: poolRest =>
      match queue_send BUF_POOL_SIZE st.txq (buf, 4 + 16 + sig_len) with
      | (true, txq2) => { pool := poolRest, txq := txq2 }
      | (false, _) => { pool := (queue_send BUF_POOL_SIZE poolRest buf).2, txq := st.txq }

/-- Embedding of one iteration of proto_tx_task: dequeue an item (with the
empty queue standing for the blocking wait), write it out, and return its
slot to the free pool. -/
def proto_tx_step (st : PoolState) : PoolState × Option (Nat × Nat) :=
  match st.txq with
  | [] => (st, none)
  | item :: rest =>
    ({ pool := (queue_send BUF_POOL_SIZE st.pool item.1).2, txq := rest }, some item)

/-- Claim C9: slots are conserved on every path of the device pipeline.
proto_send_frame takes no slot when scanning is off or the frame exceeds
MAX_FRAME_LEN; in every case the multiset of slot handles held by the free
pool and the transmit queue is preserved (an acquired slot is either
enqueued or, on a full transmit queue, returned to the pool); and the
transmit task returns the slot of every item it dequeues to the free pool.
The capacity hypotheses hold of the running system, which distributes
exactly BUF_POOL_SIZE slots over the two queues. -/
theorem slot_conservation (st : PoolState) (scanning : Bool) (sig_len : Nat)
    (hpool : st.pool.length ≤ BUF_POOL_SIZE) :
    ((scanning = false ∨ MAX_FRAME_LEN < sig_len) →
        proto_send_frame scanning sig_len st = st)
    ∧ ((proto_send_frame scanning sig_len st).pool
          ++ ((proto_send_frame scanning sig_len st).txq.map Prod.fst)).Perm
        (st.pool ++ st.txq.map Prod.fst)
    ∧ (st.pool.length + st.txq.length ≤ BUF_POOL_SIZE →
        (((proto_tx_step st).1.pool ++ ((proto_tx_step st).1.txq.map Prod.fst)).Perm
            (st.pool ++ st.txq.map Prod.fst)
          ∧ ∀ it : Nat × Nat, (proto_tx_step st).2 = some it →
              it.1 ∈ (proto_tx_step st).1.pool)) := by
  obtain ⟨pool, txq⟩ := st
  simp only at hpool
  refine ⟨?_, ?_, ?_⟩
  · rintro (hs | hs) <;> simp [proto_send_frame, hs]
  · cases pool with
    | nil =>
      simp only [proto_send_frame]
      split_ifs <;> exact List.Perm.refl _
    | cons buf poolRest =>
      by_cases hq : txq.length < BUF_POOL_SIZE
      · have hsend : queue_send BUF_POOL_SIZE txq (buf, 4 + 16 + sig_len)
            = (true, txq ++ [(buf, 4 + 16 + sig_len)]) := by
          simp [queue_send, hq]
        simp only [proto_send_frame, hsend]
        split_ifs with hs1 hs2
        · exact List.Perm.refl _
        · exact List.Perm.refl _
        · simp only [List.map_append, List.map_cons, List.map_nil]
          rw [← List.append_assoc]
          exact List.perm_append_singleton _ _
      · have hcap : poolRest.length < BUF_POOL_SIZE := by
          simp only [List.length_cons] at hpool
          omega
        have hsend : queue_send BUF_POOL_SIZE txq (buf, 4 + 16 + sig_len) = (false, txq) := by
          simp [queue_send, hq]
        have hret : (queue_send BUF_POOL_SIZE poolRest buf).2 = poolRest ++ [buf] := by
          simp [queue_send, hcap]
        simp only [proto_send_frame, hsend, hret]
        split_ifs with hs1 hs2
        · exact List.Perm.refl _
        · exact List.Perm.refl _
        · exact List.Perm.append_right _ (List.perm_append_singleton _ _)
  · intro hsum
    cases txq with
    | nil =>
      exact ⟨List.Perm.refl _, fun it hit => Option.noConfusion hit⟩
    | cons item rest =>
      have hcap : pool.length < BUF_POOL_SIZE := by
        simp only [List.length_cons] at hsum
        omega
      constructor
      · have hret : (queue_send BUF_POOL_SIZE pool item.1).2 = pool ++ [item.1] := by
          simp [queue_send, hcap]
        simp only [proto_tx_step, hret, List.map_cons]
        rw [List.append_assoc]
        exact List.Perm.refl _
      · intro it hit
        have hits : item = it := by
          injection hit
        subst hits
        show item.1 ∈ (queue_send BUF_POOL_SIZE pool item.1).2
        simp [queue_send, hcap]

/-- Witness for claim C9 at concrete inputs. -/
theorem slot_conservation_witness :
    proto_send_frame false 100 ⟨[0, 1], [(2, 30)]⟩ = ⟨[0, 1], [(2, 30)]⟩
    ∧ (0 : Nat) ∈ (proto_tx_step ⟨[1], [(0, 30), (2, 30)]⟩).1.pool :=
  ⟨(slot_conservation ⟨[0, 1], [(2, 30)]⟩ false 100 (by decide)).1 (Or.inl rfl),
   ((slot_conservation ⟨[1], [(0, 30), (2, 30)]⟩ false 100 (by decide)).2.2
      (by decide)).2 (0, 30) rfl⟩
